import Mathlib

/-! Toxiproxy: the toxic collection (`toxic_collection.go`)

A shallow embedding of `ToxicCollection` and its operations.

Go pointers are modelled by addresses into explicit heaps: a heap of
`ToxicWrapper` objects and a heap of `ToxicLink` objects.  An address is the
position of the object in the heap; allocation appends.  An address beyond the
heap plays the part of `nil`, and dereferencing it is a run-time panic.

The source hands wrappers around both as `*ToxicWrapper` and as `Toxic`; both
are addresses of wrappers here.  The readers and writers of a link are plain
handles (numbers), and so is the proxy.

Every operation returns an `Outcome`: either it returns normally with a value
and the world it leaves behind, or it panics and leaves the world it had
reached when the panic was raised (the deferred `Unlock` runs in both cases, so
the mutex is not part of the state).
-/

namespace Toxiproxy

/-! ## Data model -/

/-- An address in one of the heaps. -/
abbrev Ptr := Nat

/-- Modelled from the spec: the concrete toxic types (`SlowCloseToxic`,
`LatencyToxic`, `BandwidthToxic`, `TimeoutToxic`, `NoopToxic`) live in the
`toxics` package; a toxic carries a stable name, which is also its type
discriminator, and its type-specific numeric parameters. -/
structure Toxic where
  name : String
  params : List Int
deriving DecidableEq, Repr

/-- The wrapper the collection stores, as the composite literals
`{new(SlowCloseToxic), false, -1}` build it: the embedded toxic, the enabled
flag and an index. -/
structure ToxicWrapper where
  Toxic : Toxic
  Enabled : Bool
  Index : Int
deriving DecidableEq, Repr

/-- The promoted method `Name()` of the embedded toxic. -/
def ToxicWrapper.Name (t : ToxicWrapper) : String := t.Toxic.name

/-- Modelled from the spec: `new(SlowCloseToxic)`, named "slow_close", with
the zero value of its parameter `delay`. -/
def newSlowCloseToxic : Toxic := ⟨"slow_close", [0]⟩

/-- Modelled from the spec: `new(LatencyToxic)`, named "latency", with the
zero values of `latency` and `jitter`. -/
def newLatencyToxic : Toxic := ⟨"latency", [0, 0]⟩

/-- Modelled from the spec: `new(BandwidthToxic)`, named "bandwidth", with
the zero value of `rate`. -/
def newBandwidthToxic : Toxic := ⟨"bandwidth", [0]⟩

/-- Modelled from the spec: `new(TimeoutToxic)`, named "timeout", with the
zero value of `timeout`. -/
def newTimeoutToxic : Toxic := ⟨"timeout", [0]⟩

/-- Modelled from the spec: `new(NoopToxic)`, named "noop", without
parameters. -/
def newNoopToxic : Toxic := ⟨"noop", []⟩

/-- Modelled from the spec: a `ToxicLink` (file `toxic_link.go`), seen as a
per-slot chain that is initialised from the collection's chain when the link
is created and that `SetToxic(t, i)` updates at slot `i`.  `cmds` records the
reconfiguration commands the link has received, oldest first; `started`
records the arguments of `Start`. -/
structure ToxicLink where
  proxy : Nat
  chain : List Ptr
  cmds : List (Ptr × Nat)
  started : Option (String × Nat × Nat)
deriving DecidableEq, Repr

/-- The Go struct `ToxicCollection` (the embedded mutex left out). `links` is
the map `map[string]*ToxicLink`, kept as an association list with at most one
entry per key. -/
structure ToxicCollection where
  noop : Ptr
  proxy : Nat
  chain : List Ptr
  toxics : List Ptr
  links : List (String × Ptr)
deriving DecidableEq, Repr

/-- The memory the operations act on: both heaps and the collection. -/
structure World where
  wrappers : List ToxicWrapper
  linkObjs : List ToxicLink
  c : ToxicCollection
deriving DecidableEq, Repr

/-- How a call ends. -/
inductive Outcome (α : Type) where
  | ret (val : α) (w : World)
  | panic (w : World)
deriving DecidableEq, Repr

/-- The world a call leaves behind. -/
def Outcome.world {α : Type} : Outcome α → World
  | .ret _ w => w
  | .panic w => w

/-- Whether the call returned normally. -/
def Outcome.returned {α : Type} : Outcome α → Bool
  | .ret _ _ => true
  | .panic _ => false

/-- The errors the configuration operations return. -/
inductive Error where
  | decode
  | badToxicType (name : String)
  | badToxicValue (toxic : Ptr)
deriving DecidableEq, Repr

/-! ## Go maps with string keys -/

/-- Lookup `m[k]`. -/
def mapGet {β : Type} : List (String × β) → String → Option β
  | [], _ => none
  | (k', v) :: m, k => if k' = k then some v else mapGet m k

/-- The builtin `delete(m, k)`. -/
def mapDelete {β : Type} (m : List (String × β)) (k : String) : List (String × β) :=
  m.filter (fun e => decide (e.1 ≠ k))

/-- Assignment `m[k] = v`. -/
def mapSet {β : Type} (m : List (String × β)) (k : String) (v : β) : List (String × β) :=
  (k, v) :: mapDelete m k

/-! ## JSON payloads -/

/-- Modelled from the spec: the payload handed to `json.NewDecoder(data).Decode`.
Each field that is present overwrites the stored one, a field that is absent
leaves it alone; `err` tells whether `Decode` reports an error.  The name of a
toxic is its type and is not changed by decoding. -/
structure JsonData where
  enabled : Option Bool
  index : Option Int
  params : Option (List Int)
  err : Bool
deriving DecidableEq, Repr

/-- The effect of `Decode(toxic)` on the object `toxic` points to, and whether
an error is returned. -/
def JsonData.Decode (d : JsonData) (t : ToxicWrapper) : ToxicWrapper × Bool :=
  ({ Toxic := { name := t.Toxic.name, params := d.params.getD t.Toxic.params },
     Enabled := d.enabled.getD t.Enabled,
     Index := d.index.getD t.Index }, d.err)

/-! ## Links -/

/-- Modelled from the spec: `NewToxicLink(proxy, c)` gives the link a snapshot
of the collection's current chain. -/
def NewToxicLink (proxy : Nat) (c : ToxicCollection) : ToxicLink :=
  { proxy := proxy, chain := c.chain, cmds := [], started := none }

/-- Modelled from the spec: `link.Start(name, input, output)`. -/
def ToxicLink.Start (l : ToxicLink) (name : String) (input output : Nat) : ToxicLink :=
  { l with started := some (name, input, output) }

/-- Modelled from the spec: `link.SetToxic(toxic, index)` replaces the stage
at slot `index`; the command is recorded. -/
def ToxicLink.SetToxic (l : ToxicLink) (toxic : Ptr) (index : Nat) : ToxicLink :=
  { l with chain := l.chain.set index toxic, cmds := l.cmds ++ [(toxic, index)] }

/-- Apply `f` to the object at address `p` of a heap. -/
def heapModify {α : Type} (heap : List α) (p : Ptr) (f : α → α) : List α :=
  match heap[p]? with
  | none => heap
  | some a => heap.set p (f a)

/-! ## The collection -/

/-- `NewToxicCollection(proxy)`: the four wrappers of `toxicOrder` are allocated
at addresses 0 to 3 and the noop wrapper at address 4; the chain is made with
length 1 and its only element set to the noop. -/
def NewToxicCollection (proxy : Nat) : World :=
  let toxicOrder : List ToxicWrapper :=
    [ ⟨newSlowCloseToxic, false, -1⟩,
      ⟨newLatencyToxic, false, -1⟩,
      ⟨newBandwidthToxic, false, -1⟩,
      ⟨newTimeoutToxic, false, -1⟩ ]
  let noop : Ptr := toxicOrder.length
  { wrappers := toxicOrder ++ [⟨newNoopToxic, true, 0⟩],
    linkObjs := [],
    c := { noop := noop,
           proxy := proxy,
           chain := (List.replicate 1 noop).set 0 noop,
           toxics := List.range toxicOrder.length,
           links := [] } }

/-- The fan-out of `setToxic`: every link of the registry gets
`link.SetToxic(toxic, index)`. -/
def fanOut (linkObjs : List ToxicLink) (links : List (String × Ptr)) (toxic : Ptr)
    (index : Nat) : List ToxicLink :=
  links.foldl (fun objs e => heapModify objs e.2 (fun l => l.SetToxic toxic index)) linkObjs

/-- `c.setToxic(toxic, index)`. Reading `toxic.Enabled` through a nil pointer
panics, and so does writing `c.chain[index]` out of range. -/
def setToxic (w : World) (toxic : Ptr) (index : Nat) : Outcome Unit :=
  match w.wrappers[toxic]? with
  | none => .panic w
  | some t =>
    if index < w.c.chain.length then
      let chain := w.c.chain.set index (if !t.Enabled then w.c.noop else toxic)
      let linkObjs := fanOut w.linkObjs w.c.links (chain.getD index w.c.noop) index
      .ret () ⟨w.wrappers, linkObjs, ⟨w.c.noop, w.c.proxy, chain, w.c.toxics, w.c.links⟩⟩
    else .panic w

/-- The loop of `ResetToxics` over the remaining slots, `index` being the
position of the first of them. -/
def ResetToxics.loop (w : World) : List Ptr → Nat → Outcome Unit
  | [], _ => .ret () w
  | toxic :: rest, index =>
    match w.wrappers[toxic]? with
    | none => .panic w
    | some t =>
      match setToxic { w with wrappers := w.wrappers.set toxic { t with Enabled := false } }
          toxic index with
      | .ret _ w2 => ResetToxics.loop w2 rest (index + 1)
      | .panic w2 => .panic w2

/-- `c.ResetToxics()`. -/
def ResetToxics (w : World) : Outcome Unit :=
  ResetToxics.loop w w.c.toxics 0

/-- The loop of `GetToxic`. -/
def GetToxic.loop (w : World) (name : String) : List Ptr → Outcome (Option Ptr)
  | [] => .ret none w
  | toxic :: rest =>
    match w.wrappers[toxic]? with
    | none => .panic w
    | some t => if t.Name = name then .ret (some toxic) w else GetToxic.loop w name rest

/-- `c.GetToxic(name)`; the result `none` is Go's `nil`. -/
def GetToxic (w : World) (name : String) : Outcome (Option Ptr) :=
  GetToxic.loop w name w.c.toxics

/-- The loop of `GetToxicMap`, `result` being the map built so far. -/
def GetToxicMap.loop (w : World) : List Ptr → List (String × Ptr) → Outcome (List (String × Ptr))
  | [], result => .ret result w
  | toxic :: rest, result =>
    match w.wrappers[toxic]? with
    | none => .panic w
    | some t => GetToxicMap.loop w rest (mapSet result t.Name toxic)

/-- `c.GetToxicMap()`. -/
def GetToxicMap (w : World) : Outcome (List (String × Ptr)) :=
  GetToxicMap.loop w w.c.toxics []

/-- The loop of `SetToxicJson`. -/
def SetToxicJson.loop (w : World) (name : String) (data : JsonData) :
    List Ptr → Nat → Outcome (Except Error Ptr)
  | [], _ => .ret (.error (.badToxicType name)) w
  | toxic :: rest, index =>
    match w.wrappers[toxic]? with
    | none => .panic w
    | some t =>
      if t.Name = name then
        let w1 : World := { w with wrappers := w.wrappers.set toxic (data.Decode t).1 }
        if (data.Decode t).2 then .ret (.error .decode) w1
        else
          match setToxic w1 toxic index with
          | .ret _ w2 => .ret (.ok toxic) w2
          | .panic w2 => .panic w2
      else SetToxicJson.loop w name data rest (index + 1)

/-- `c.SetToxicJson(name, data)`. -/
def SetToxicJson (w : World) (name : String) (data : JsonData) : Outcome (Except Error Ptr) :=
  SetToxicJson.loop w name data w.c.toxics 0

/-- The loop of `SetToxicValue`. -/
def SetToxicValue.loop (w : World) (toxic : Ptr) : List Ptr → Nat → Outcome (Option Error)
  | [], _ => .ret (some (.badToxicValue toxic)) w
  | toxic2 :: rest, index =>
    match w.wrappers[toxic2]?, w.wrappers[toxic]? with
    | some t2, some t =>
      if t2.Name = t.Name then
        match setToxic w toxic index with
        | .ret _ w2 => .ret none w2
        | .panic w2 => .panic w2
      else SetToxicValue.loop w toxic rest (index + 1)
    | _, _ => .panic w

/-- `c.SetToxicValue(toxic)`; the result `none` is the `nil` error. -/
def SetToxicValue (w : World) (toxic : Ptr) : Outcome (Option Error) :=
  SetToxicValue.loop w toxic w.c.toxics 0

/-- `c.StartLink(name, input, output)`: the new link is allocated at the end of
the link heap and registered under `name`. -/
def StartLink (w : World) (name : String) (input output : Nat) : Outcome Unit :=
  let link : Ptr := w.linkObjs.length
  .ret () { w with
    linkObjs := w.linkObjs ++ [(NewToxicLink w.c.proxy w.c).Start name input output],
    c := { w.c with links := mapSet w.c.links name link } }

/-- `c.RemoveLink(name)`. -/
def RemoveLink (w : World) (name : String) : Outcome Unit :=
  .ret () { w with c := { w.c with links := mapDelete w.c.links name } }

/-! ## Call sequences -/

/-- A call on the collection; `new t` is the caller allocating a wrapper of
its own, which it can then pass to `SetToxicValue`. -/
inductive Op where
  | ResetToxics
  | SetToxicJson (name : String) (data : JsonData)
  | SetToxicValue (toxic : Ptr)
  | StartLink (name : String) (input output : Nat)
  | RemoveLink (name : String)
  | GetToxic (name : String)
  | GetToxicMap
  | new (t : ToxicWrapper)
deriving DecidableEq, Repr

/-- The world after one call, whether it returned or panicked. -/
def step (w : World) : Op → World
  | .ResetToxics => (ResetToxics w).world
  | .SetToxicJson name data => (SetToxicJson w name data).world
  | .SetToxicValue toxic => (SetToxicValue w toxic).world
  | .StartLink name input output => (StartLink w name input output).world
  | .RemoveLink name => (RemoveLink w name).world
  | .GetToxic name => (GetToxic w name).world
  | .GetToxicMap => (GetToxicMap w).world
  | .new t => { w with wrappers := w.wrappers ++ [t] }

/-- The world after a sequence of calls. -/
def run (w : World) (ops : List Op) : World := ops.foldl step w

/-- The worlds reachable from a freshly constructed collection. -/
def Reachable (w : World) : Prop :=
  ∃ (proxy : Nat) (ops : List Op), w = run (NewToxicCollection proxy) ops

/-! ## The invariant of reachable worlds -/

/-- What holds of every world reachable from `NewToxicCollection`: the noop is
at address 4, the slots are the addresses 0 to 3 in order, the chain has one
element, the five wrappers of the constructor keep their names, and every
registered link is a distinct live object whose chain equals the chain of the
collection, and the registry has one entry per key. -/
structure Inv (w : World) : Prop where
  noop : w.c.noop = 4
  toxics : w.c.toxics = [0, 1, 2, 3]
  chain : w.c.chain.length = 1
  names : (w.wrappers.map ToxicWrapper.Name).take 5
    = ["slow_close", "latency", "bandwidth", "timeout", "noop"]
  linksValid : ∀ q ∈ w.c.links.map Prod.snd, q < w.linkObjs.length
  linksNodup : (w.c.links.map Prod.snd).Nodup
  mirror : ∀ q ∈ w.c.links.map Prod.snd, ∀ l, w.linkObjs[q]? = some l → l.chain = w.c.chain
  keysNodup : (w.c.links.map Prod.fst).Nodup

/-! ## The link heap under the fan-out -/

theorem length_heapModify {α : Type} (heap : List α) (p : Ptr) (f : α → α) :
    (heapModify heap p f).length = heap.length := by
  unfold heapModify
  split <;> simp

theorem getElem?_heapModify {α : Type} (heap : List α) (p q : Ptr) (f : α → α) :
    (heapModify heap p f)[q]? = if q = p then heap[q]?.map f else heap[q]? := by
  unfold heapModify
  by_cases hqp : q = p
  · subst hqp
    cases hq : heap[q]? with
    | none => simp [hq]
    | some a =>
      have hlt : q < heap.length := by
        rcases List.getElem?_eq_some.mp hq with ⟨h, _⟩
        exact h
      simp [List.getElem?_set, hlt]
  · have hpq : p ≠ q := fun h => hqp h.symm
    cases hp : heap[p]? with
    | none => simp [hqp]
    | some a => simp [hqp, List.getElem?_set_ne hpq]

theorem length_fanOut (links : List (String × Ptr)) (objs : List ToxicLink) (toxic : Ptr)
    (index : Nat) : (fanOut objs links toxic index).length = objs.length := by
  unfold fanOut
  induction links generalizing objs with
  | nil => rfl
  | cons e rest ih =>
    simp only [List.foldl_cons]
    rw [ih, length_heapModify]

theorem fanOut_cons (objs : List ToxicLink) (e : String × Ptr) (rest : List (String × Ptr))
    (toxic : Ptr) (index : Nat) :
    fanOut objs (e :: rest) toxic index
      = fanOut (heapModify objs e.2 (fun l => l.SetToxic toxic index)) rest toxic index := rfl

/-- A link that is not in the registry is left alone by the fan-out. -/
theorem fanOut_getElem?_of_not_mem (links : List (String × Ptr)) (objs : List ToxicLink)
    (toxic : Ptr) (index : Nat) (q : Ptr) (hq : q ∉ links.map Prod.snd) :
    (fanOut objs links toxic index)[q]? = objs[q]? := by
  induction links generalizing objs with
  | nil => rfl
  | cons e rest ih =>
    simp only [List.map_cons, List.mem_cons, not_or] at hq
    rw [fanOut_cons, ih _ hq.2, getElem?_heapModify, if_neg hq.1]

/-- A link that is in the registry gets the command exactly once. -/
theorem fanOut_getElem?_of_mem (links : List (String × Ptr)) (objs : List ToxicLink)
    (toxic : Ptr) (index : Nat) (q : Ptr) (hnd : (links.map Prod.snd).Nodup)
    (hq : q ∈ links.map Prod.snd) :
    (fanOut objs links toxic index)[q]? = objs[q]?.map (fun l => l.SetToxic toxic index) := by
  induction links generalizing objs with
  | nil => simp at hq
  | cons e rest ih =>
    simp only [List.map_cons, List.nodup_cons] at hnd
    simp only [List.map_cons, List.mem_cons] at hq
    rw [fanOut_cons]
    by_cases hqe : q = e.2
    · have hnot : q ∉ rest.map Prod.snd := by
        rw [hqe]
        exact hnd.1
      rw [fanOut_getElem?_of_not_mem _ _ _ _ _ hnot, getElem?_heapModify, if_pos hqe]
    · have hmem : q ∈ rest.map Prod.snd := by
        rcases hq with h | h
        · exact absurd h hqe
        · exact h
      rw [ih _ hnd.2 hmem, getElem?_heapModify, if_neg hqe]

/-! ## Preservation of the invariant -/

theorem map_set_same {α β : Type} (f : α → β) (l : List α) (p : Nat) (t t' : α)
    (hp : l[p]? = some t) (hf : f t' = f t) : (l.set p t').map f = l.map f := by
  induction l generalizing p with
  | nil => simp
  | cons a rest ih =>
    cases p with
    | zero =>
      simp only [List.getElem?_cons_zero, Option.some.injEq] at hp
      subst hp
      simp [hf]
    | succ p =>
      simp only [List.getElem?_cons_succ] at hp
      simp [ih p hp]

/-- Overwriting a wrapper by one of the same name keeps the invariant. -/
theorem Inv.heapWrite {w : World} (h : Inv w) (p : Ptr) (t t' : ToxicWrapper)
    (hp : w.wrappers[p]? = some t) (hn : t'.Name = t.Name) :
    Inv { w with wrappers := w.wrappers.set p t' } := by
  refine ⟨h.noop, h.toxics, h.chain, ?_, h.linksValid, h.linksNodup, h.mirror, h.keysNodup⟩
  show ((w.wrappers.set p t').map ToxicWrapper.Name).take 5 = _
  rw [map_set_same ToxicWrapper.Name w.wrappers p t t' hp hn]
  exact h.names

/-- What `setToxic` does: it panics and leaves the world alone, or it returns
after writing one slot of the chain and sending the command to the registered
links. -/
theorem setToxic_cases (w : World) (toxic : Ptr) (index : Nat) :
    setToxic w toxic index = .panic w ∨
    ∃ t, w.wrappers[toxic]? = some t ∧ index < w.c.chain.length ∧
      setToxic w toxic index = .ret () { w with
        c := { w.c with chain := w.c.chain.set index (if !t.Enabled then w.c.noop else toxic) },
        linkObjs := fanOut w.linkObjs w.c.links (if !t.Enabled then w.c.noop else toxic) index } := by
  unfold setToxic
  cases ht : w.wrappers[toxic]? with
  | none => exact Or.inl rfl
  | some t =>
    by_cases hi : index < w.c.chain.length
    · refine Or.inr ⟨t, rfl, hi, ?_⟩
      simp [hi, List.getElem?_set]
    · exact Or.inl (by simp [hi])

theorem Inv.setToxic {w : World} (h : Inv w) (toxic : Ptr) (index : Nat) :
    Inv (setToxic w toxic index).world := by
  rcases setToxic_cases w toxic index with hp | ⟨t, _, hi, hr⟩
  · rw [hp]
    exact h
  · rw [hr]
    refine ⟨h.noop, h.toxics, ?_, h.names, ?_, h.linksNodup, ?_, h.keysNodup⟩
    · simp [Outcome.world, h.chain]
    · intro q hq
      simp only [Outcome.world, length_fanOut]
      exact h.linksValid q hq
    · intro q hq l hl
      simp only [Outcome.world] at hq hl ⊢
      rw [fanOut_getElem?_of_mem _ _ _ _ _ h.linksNodup hq] at hl
      cases hq0 : w.linkObjs[q]? with
      | none => simp [hq0] at hl
      | some l0 =>
        simp only [hq0, Option.map_some', Option.some.injEq] at hl
        subst hl
        simp [ToxicLink.SetToxic, h.mirror q hq l0 hq0]

theorem Inv.resetLoop (l : List Ptr) {w : World} (h : Inv w) (index : Nat) :
    Inv (ResetToxics.loop w l index).world := by
  induction l generalizing w index with
  | nil => exact h
  | cons toxic rest ih =>
    unfold ResetToxics.loop
    cases ht : w.wrappers[toxic]? with
    | none => exact h
    | some t =>
      have h1 := (h.heapWrite toxic t { t with Enabled := false } ht rfl).setToxic toxic index
      simp only
      cases hs : Toxiproxy.setToxic { w with wrappers := w.wrappers.set toxic { t with Enabled := false } }
          toxic index with
      | ret v w2 =>
        rw [hs] at h1
        exact ih h1 (index + 1)
      | panic w2 =>
        rw [hs] at h1
        exact h1

theorem Inv.setJsonLoop (l : List Ptr) {w : World} (h : Inv w) (name : String) (data : JsonData)
    (index : Nat) : Inv (SetToxicJson.loop w name data l index).world := by
  induction l generalizing index with
  | nil => exact h
  | cons toxic rest ih =>
    unfold SetToxicJson.loop
    cases ht : w.wrappers[toxic]? with
    | none => exact h
    | some t =>
      simp only
      by_cases hn : t.Name = name
      · have h0 := h.heapWrite toxic t (data.Decode t).1 ht rfl
        have h1 := h0.setToxic toxic index
        simp only [hn, if_true]
        by_cases he : (data.Decode t).2 = true
        · simp only [he, if_true]
          exact h0
        · simp only [he]
          cases hs : Toxiproxy.setToxic { w with wrappers := w.wrappers.set toxic (data.Decode t).1 }
              toxic index with
          | ret v w2 =>
            rw [hs] at h1
            exact h1
          | panic w2 =>
            rw [hs] at h1
            exact h1
      · simp only [hn, if_false]
        exact ih (index + 1)

theorem Inv.setValueLoop (l : List Ptr) {w : World} (h : Inv w) (toxic : Ptr) (index : Nat) :
    Inv (SetToxicValue.loop w toxic l index).world := by
  induction l generalizing index with
  | nil => exact h
  | cons toxic2 rest ih =>
    unfold SetToxicValue.loop
    have h1 := h.setToxic toxic index
    split
    · split
      · cases hs : Toxiproxy.setToxic w toxic index with
        | ret v w2 =>
          rw [hs] at h1
          exact h1
        | panic w2 =>
          rw [hs] at h1
          exact h1
      · exact ih (index + 1)
    · exact h

theorem getLoop_world (l : List Ptr) (w : World) (name : String) :
    (GetToxic.loop w name l).world = w := by
  induction l with
  | nil => rfl
  | cons toxic rest ih =>
    unfold GetToxic.loop
    split
    · rfl
    · split
      · rfl
      · exact ih

theorem getMapLoop_world (l : List Ptr) (w : World) (result : List (String × Ptr)) :
    (GetToxicMap.loop w l result).world = w := by
  induction l generalizing result with
  | nil => rfl
  | cons toxic rest ih =>
    unfold GetToxicMap.loop
    split
    · rfl
    · exact ih _

theorem mapDelete_sublist (m : List (String × Ptr)) (k : String) :
    ((mapDelete m k).map Prod.snd).Sublist (m.map Prod.snd) :=
  (List.filter_sublist m).map Prod.snd

theorem mapDelete_keys_sublist (m : List (String × Ptr)) (k : String) :
    ((mapDelete m k).map Prod.fst).Sublist (m.map Prod.fst) :=
  (List.filter_sublist m).map Prod.fst

theorem not_mem_keys_mapDelete (m : List (String × Ptr)) (k : String) :
    k ∉ (mapDelete m k).map Prod.fst := by
  intro hmem
  rcases List.mem_map.mp hmem with ⟨e, he, hk⟩
  have := (List.mem_filter.mp he).2
  simp [hk] at this

theorem Inv.removeLink {w : World} (h : Inv w) (name : String) :
    Inv (RemoveLink w name).world := by
  have hsub := mapDelete_sublist w.c.links name
  refine ⟨h.noop, h.toxics, h.chain, h.names, ?_, ?_, ?_, ?_⟩
  · intro q hq
    exact h.linksValid q (hsub.subset hq)
  · exact h.linksNodup.sublist hsub
  · intro q hq l hl
    exact h.mirror q (hsub.subset hq) l hl
  · exact h.keysNodup.sublist (mapDelete_keys_sublist w.c.links name)

theorem Inv.startLink {w : World} (h : Inv w) (name : String) (input output : Nat) :
    Inv (StartLink w name input output).world := by
  have hsub := mapDelete_sublist w.c.links name
  have hold : ∀ q ∈ (mapDelete w.c.links name).map Prod.snd, q < w.linkObjs.length :=
    fun q hq => h.linksValid q (hsub.subset hq)
  refine ⟨h.noop, h.toxics, h.chain, h.names, ?_, ?_, ?_, ?_⟩
  · intro q hq
    have hlen : (StartLink w name input output).world.linkObjs.length
        = w.linkObjs.length + 1 := by
      simp [StartLink, Outcome.world]
    rw [hlen]
    simp only [StartLink, Outcome.world, mapSet, List.map_cons, List.mem_cons] at hq
    rcases hq with hq | hq
    · rw [hq]
      exact Nat.lt_succ_self _
    · exact Nat.lt_succ_of_lt (hold q hq)
  · simp only [StartLink, Outcome.world, mapSet, List.map_cons, List.nodup_cons]
    refine ⟨?_, h.linksNodup.sublist hsub⟩
    intro hmem
    exact Nat.lt_irrefl _ (hold _ hmem)
  · intro q hq l hl
    simp only [StartLink, Outcome.world, mapSet, List.map_cons, List.mem_cons] at hq hl ⊢
    rcases hq with hq | hq
    · subst hq
      rw [List.getElem?_concat_length] at hl
      simp only [Option.some.injEq] at hl
      subst hl
      rfl
    · have hlt := hold q hq
      rw [List.getElem?_append_left hlt] at hl
      exact h.mirror q (hsub.subset hq) l hl
  · simp only [StartLink, Outcome.world, mapSet, List.map_cons, List.nodup_cons]
    exact ⟨not_mem_keys_mapDelete _ _,
      h.keysNodup.sublist (mapDelete_keys_sublist w.c.links name)⟩

theorem Inv.alloc {w : World} (h : Inv w) (t : ToxicWrapper) :
    Inv { w with wrappers := w.wrappers ++ [t] } := by
  refine ⟨h.noop, h.toxics, h.chain, ?_, h.linksValid, h.linksNodup, h.mirror, h.keysNodup⟩
  have hn := h.names
  have hlen : 5 ≤ (w.wrappers.map ToxicWrapper.Name).length := by
    by_contra hlt
    have h5 := congrArg List.length hn
    simp only [List.length_take, List.length_map, List.length_cons, List.length_nil] at h5 hlt
    omega
  show ((w.wrappers ++ [t]).map ToxicWrapper.Name).take 5 = _
  rw [List.map_append, List.take_append_of_le_length hlen]
  exact hn

theorem Inv.init (proxy : Nat) : Inv (NewToxicCollection proxy) := by
  refine ⟨rfl, rfl, rfl, rfl, ?_, ?_, ?_, ?_⟩
  · intro q hq
    simp [NewToxicCollection] at hq
  · simp [NewToxicCollection]
  · intro q hq
    simp [NewToxicCollection] at hq
  · simp [NewToxicCollection]

theorem Inv.step {w : World} (h : Inv w) (op : Op) : Inv (step w op) := by
  cases op with
  | ResetToxics => exact h.resetLoop _ 0
  | SetToxicJson name data => exact h.setJsonLoop _ name data 0
  | SetToxicValue toxic => exact h.setValueLoop _ toxic 0
  | StartLink name input output => exact h.startLink name input output
  | RemoveLink name => exact h.removeLink name
  | GetToxic name =>
    show Inv (GetToxic.loop w name w.c.toxics).world
    rw [getLoop_world]
    exact h
  | GetToxicMap =>
    show Inv (GetToxicMap.loop w w.c.toxics []).world
    rw [getMapLoop_world]
    exact h
  | new t => exact h.alloc t

theorem Inv.run (ops : List Op) {w : World} (h : Inv w) : Inv (run w ops) := by
  induction ops generalizing w with
  | nil => exact h
  | cons op rest ih => exact ih (h.step op)

theorem Inv.of_reachable {w : World} (h : Reachable w) : Inv w := by
  rcases h with ⟨proxy, ops, rfl⟩
  exact Inv.run ops (Inv.init proxy)

/-- The shape of a world that satisfies the invariant. -/
theorem Inv.shape {w : World} (h : Inv w) :
    ∃ t0 t1 t2 t3 t4 rest c0,
      w.wrappers = t0 :: t1 :: t2 :: t3 :: t4 :: rest ∧
      t0.Name = "slow_close" ∧ t1.Name = "latency" ∧ t2.Name = "bandwidth" ∧
      t3.Name = "timeout" ∧ t4.Name = "noop" ∧
      w.c.chain = [c0] ∧ w.c.toxics = [0, 1, 2, 3] ∧ w.c.noop = 4 := by
  have hn := h.names
  have hc := h.chain
  rcases hw : w.wrappers with _ | ⟨t0, _ | ⟨t1, _ | ⟨t2, _ | ⟨t3, _ | ⟨t4, rest⟩⟩⟩⟩⟩ <;>
    rw [hw] at hn <;> simp at hn
  rcases hch : w.c.chain with _ | ⟨c0, _ | ⟨c1, r⟩⟩ <;> rw [hch] at hc <;> simp at hc
  exact ⟨t0, t1, t2, t3, t4, rest, c0, rfl, hn.1, hn.2.1, hn.2.2.1, hn.2.2.2.1, hn.2.2.2.2,
    rfl, h.toxics, h.noop⟩

theorem reachable_init (proxy : Nat) : Reachable (NewToxicCollection proxy) :=
  ⟨proxy, [], rfl⟩

theorem reachable_run (proxy : Nat) (ops : List Op) :
    Reachable (run (NewToxicCollection proxy) ops) :=
  ⟨proxy, ops, rfl⟩

/-- In a world that satisfies the invariant every slot points to a wrapper. -/
theorem Inv.toxicsValid {w : World} (h : Inv w) :
    ∀ p ∈ w.c.toxics, ∃ t, w.wrappers[p]? = some t := by
  obtain ⟨t0, t1, t2, t3, t4, rest, c0, hw, -, -, -, -, -, -, ht, -⟩ := h.shape
  intro p hp
  rw [ht] at hp
  simp only [List.mem_cons, List.mem_singleton, List.not_mem_nil, or_false] at hp
  rcases hp with rfl | rfl | rfl | rfl <;> simp [hw]

/-! ## The unknown-toxic error -/

theorem setJsonLoop_bad_world (l : List Ptr) (w : World) (name : String) (data : JsonData)
    (index : Nat) (e : String) (w' : World)
    (h : SetToxicJson.loop w name data l index = Outcome.ret (Except.error (Error.badToxicType e)) w') :
    w' = w ∧ e = name := by
  induction l generalizing index with
  | nil =>
    simp only [SetToxicJson.loop, Outcome.ret.injEq, Except.error.injEq,
      Error.badToxicType.injEq] at h
    exact ⟨h.2.symm, h.1.symm⟩
  | cons toxic rest ih =>
    unfold SetToxicJson.loop at h
    split at h
    · cases h
    · split at h
      · split at h
        · cases h
        · dsimp only at h
          split at h <;> cases h
      · exact ih _ h

theorem setJsonLoop_bad_iff (l : List Ptr) (w : World) (name : String) (data : JsonData)
    (index : Nat) (hv : ∀ p ∈ l, ∃ t, w.wrappers[p]? = some t) :
    SetToxicJson.loop w name data l index
        = Outcome.ret (Except.error (Error.badToxicType name)) w ↔
      ∀ p ∈ l, ∀ t, w.wrappers[p]? = some t → t.Name ≠ name := by
  induction l generalizing index with
  | nil => simp [SetToxicJson.loop]
  | cons toxic rest ih =>
    obtain ⟨t, ht⟩ := hv toxic (List.mem_cons_self _ _)
    have hv2 : ∀ p ∈ rest, ∃ t, w.wrappers[p]? = some t :=
      fun p hp => hv p (List.mem_cons_of_mem _ hp)
    unfold SetToxicJson.loop
    simp only [ht]
    by_cases hn : t.Name = name
    · simp only [hn, if_true]
      constructor
      · intro h
        split at h
        · cases h
        · split at h <;> cases h
      · intro h
        exact absurd hn (h toxic (List.mem_cons_self _ _) t ht)
    · simp only [hn, if_false]
      rw [ih (index + 1) hv2]
      constructor
      · intro h p hp t' ht'
        rcases List.mem_cons.mp hp with rfl | hp
        · rw [ht] at ht'
          cases ht'
          exact hn
        · exact h p hp t' ht'
      · intro h p hp
        exact h p (List.mem_cons_of_mem _ hp)

theorem setValueLoop_bad_world (l : List Ptr) (w : World) (toxic : Ptr) (index : Nat)
    (e : Error) (w' : World)
    (h : SetToxicValue.loop w toxic l index = Outcome.ret (some e) w') :
    w' = w ∧ e = Error.badToxicValue toxic := by
  induction l generalizing index with
  | nil =>
    simp only [SetToxicValue.loop, Outcome.ret.injEq, Option.some.injEq] at h
    exact ⟨h.2.symm, h.1.symm⟩
  | cons toxic2 rest ih =>
    unfold SetToxicValue.loop at h
    split at h
    · split at h
      · split at h <;> cases h
      · exact ih _ h
    · cases h

theorem setValueLoop_bad_iff (l : List Ptr) (w : World) (toxic : Ptr) (t : ToxicWrapper)
    (index : Nat) (htox : w.wrappers[toxic]? = some t)
    (hv : ∀ p ∈ l, ∃ t2, w.wrappers[p]? = some t2) :
    SetToxicValue.loop w toxic l index
        = Outcome.ret (some (Error.badToxicValue toxic)) w ↔
      ∀ p ∈ l, ∀ t2, w.wrappers[p]? = some t2 → t2.Name ≠ t.Name := by
  induction l generalizing index with
  | nil => simp [SetToxicValue.loop]
  | cons toxic2 rest ih =>
    obtain ⟨t2, ht2⟩ := hv toxic2 (List.mem_cons_self _ _)
    have hv2 : ∀ p ∈ rest, ∃ t2, w.wrappers[p]? = some t2 :=
      fun p hp => hv p (List.mem_cons_of_mem _ hp)
    unfold SetToxicValue.loop
    simp only [ht2, htox]
    by_cases hn : t2.Name = t.Name
    · simp only [hn, if_true]
      constructor
      · intro h
        split at h <;> cases h
      · intro h
        exact absurd hn (h toxic2 (List.mem_cons_self _ _) t2 ht2)
    · simp only [hn, if_false]
      rw [ih (index + 1) hv2]
      constructor
      · intro h p hp t' ht'
        rcases List.mem_cons.mp hp with rfl | hp
        · rw [ht2] at ht'
          cases ht'
          exact hn
        · exact h p hp t' ht'
      · intro h p hp
        exact h p (List.mem_cons_of_mem _ hp)

/-! ## The registry as a map -/

theorem mapGet_mapDelete_self {β : Type} (m : List (String × β)) (k : String) :
    mapGet (mapDelete m k) k = none := by
  induction m with
  | nil => rfl
  | cons e rest ih =>
    obtain ⟨k1, v⟩ := e
    by_cases hk : k1 = k
    · simpa [mapDelete, hk] using ih
    · have : mapDelete ((k1, v) :: rest) k = (k1, v) :: mapDelete rest k := by
        simp [mapDelete, hk]
      rw [this]
      simp [mapGet, hk, ih]

theorem mapGet_mapDelete_ne {β : Type} (m : List (String × β)) (k k2 : String) (h : k2 ≠ k) :
    mapGet (mapDelete m k) k2 = mapGet m k2 := by
  induction m with
  | nil => rfl
  | cons e rest ih =>
    obtain ⟨k1, v⟩ := e
    by_cases hk : k1 = k
    · have hd : mapDelete ((k1, v) :: rest) k = mapDelete rest k := by
        simp [mapDelete, hk]
      have hne : ¬ k1 = k2 := fun h2 => h (h2.symm.trans hk)
      rw [hd, ih]
      simp [mapGet, hne]
    · have hd : mapDelete ((k1, v) :: rest) k = (k1, v) :: mapDelete rest k := by
        simp [mapDelete, hk]
      rw [hd]
      simp only [mapGet, ih]

theorem mapDelete_of_mapGet_none {β : Type} (m : List (String × β)) (k : String)
    (h : mapGet m k = none) : mapDelete m k = m := by
  induction m with
  | nil => rfl
  | cons e rest ih =>
    obtain ⟨k1, v⟩ := e
    by_cases hk : k1 = k
    · simp [mapGet, hk] at h
    · simp only [mapGet, hk, if_false] at h
      have hd : mapDelete ((k1, v) :: rest) k = (k1, v) :: mapDelete rest k := by
        simp [mapDelete, hk]
      rw [hd, ih h]

theorem mapGet_mapSet_self {β : Type} (m : List (String × β)) (k : String) (v : β) :
    mapGet (mapSet m k v) k = some v := by
  simp [mapSet, mapGet]

theorem mapGet_mapSet_ne {β : Type} (m : List (String × β)) (k k2 : String) (v : β)
    (h : k2 ≠ k) : mapGet (mapSet m k v) k2 = mapGet m k2 := by
  have hne : ¬ k = k2 := fun h2 => h h2.symm
  simp only [mapSet, mapGet, hne, if_false]
  exact mapGet_mapDelete_ne m k k2 h

theorem mem_of_mapGet {β : Type} (m : List (String × β)) (k : String) (v : β)
    (h : mapGet m k = some v) : (k, v) ∈ m := by
  induction m with
  | nil => simp [mapGet] at h
  | cons e rest ih =>
    obtain ⟨k1, v1⟩ := e
    by_cases hk : k1 = k
    · simp only [mapGet, hk, if_true, Option.some.injEq] at h
      subst hk h
      exact List.mem_cons_self _ _
    · simp only [mapGet, hk, if_false] at h
      exact List.mem_cons_of_mem _ (ih h)

theorem mapGet_of_mem {β : Type} (m : List (String × β)) (k : String) (v : β)
    (hnd : (m.map Prod.fst).Nodup) (h : (k, v) ∈ m) : mapGet m k = some v := by
  induction m with
  | nil => simp at h
  | cons e rest ih =>
    obtain ⟨k1, v1⟩ := e
    simp only [List.map_cons, List.nodup_cons] at hnd
    rcases List.mem_cons.mp h with heq | hmem
    · cases heq
      simp [mapGet]
    · have hk : ¬ k1 = k := by
        intro hk
        apply hnd.1
        rw [hk]
        exact List.mem_map.mpr ⟨(k, v), hmem, rfl⟩
      simp only [mapGet, hk, if_false]
      exact ih hnd.2 hmem

/-- A link is in the registry exactly when some name is mapped to it. -/
theorem Inv.registered_iff {w : World} (h : Inv w) (q : Ptr) :
    q ∈ w.c.links.map Prod.snd ↔ ∃ name, mapGet w.c.links name = some q := by
  constructor
  · intro hq
    rcases List.mem_map.mp hq with ⟨⟨k, v⟩, he, hv⟩
    simp only at hv
    subst hv
    exact ⟨k, mapGet_of_mem _ _ _ h.keysNodup he⟩
  · rintro ⟨name, hn⟩
    exact List.mem_map.mpr ⟨(name, q), mem_of_mapGet _ _ _ hn, rfl⟩

/-- Every registered link is a live object whose chain is the chain of the
collection. -/
theorem Inv.registered_mirror {w : World} (h : Inv w) (name : String) (q : Ptr)
    (hq : mapGet w.c.links name = some q) :
    ∃ l, w.linkObjs[q]? = some l ∧ l.chain = w.c.chain := by
  have hmem : q ∈ w.c.links.map Prod.snd := (h.registered_iff q).2 ⟨name, hq⟩
  have hlt := h.linksValid q hmem
  exact ⟨w.linkObjs[q], List.getElem?_eq_getElem hlt,
    h.mirror q hmem _ (List.getElem?_eq_getElem hlt)⟩

/-! ## Closed forms and frames used by the claims -/

/-- The wrappers and the list of slots are never written by `setToxic`. -/
theorem setToxic_stored (w : World) (toxic : Ptr) (index : Nat) :
    (setToxic w toxic index).world.wrappers = w.wrappers ∧
    (setToxic w toxic index).world.c.toxics = w.c.toxics := by
  rcases setToxic_cases w toxic index with hp | ⟨t, _, _, hr⟩
  · rw [hp]
    exact ⟨rfl, rfl⟩
  · rw [hr]
    exact ⟨rfl, rfl⟩

theorem setValueLoop_stored (l : List Ptr) (w : World) (toxic : Ptr) (index : Nat) :
    (SetToxicValue.loop w toxic l index).world.wrappers = w.wrappers ∧
    (SetToxicValue.loop w toxic l index).world.c.toxics = w.c.toxics := by
  induction l generalizing index with
  | nil => exact ⟨rfl, rfl⟩
  | cons toxic2 rest ih =>
    unfold SetToxicValue.loop
    have h1 := setToxic_stored w toxic index
    split
    · split
      · cases hs : setToxic w toxic index with
        | ret v w2 =>
          rw [hs] at h1
          exact h1
        | panic w2 =>
          rw [hs] at h1
          exact h1
      · exact ih (index + 1)
    · exact ⟨rfl, rfl⟩

theorem getToxicMap_eq {w : World} (h : Inv w) :
    GetToxicMap w
      = Outcome.ret [("timeout", 3), ("bandwidth", 2), ("latency", 1), ("slow_close", 0)] w := by
  obtain ⟨t0, t1, t2, t3, t4, rest, c0, hw, n0, n1, n2, n3, -, -, ht, -⟩ := h.shape
  simp [GetToxicMap, GetToxicMap.loop, hw, ht, n0, n1, n2, n3, mapSet, mapDelete]

theorem getToxic_eq {w : World} (h : Inv w) (name : String) :
    GetToxic w name
      = Outcome.ret (if "slow_close" = name then some 0 else if "latency" = name then some 1
          else if "bandwidth" = name then some 2 else if "timeout" = name then some 3
          else none) w := by
  obtain ⟨t0, t1, t2, t3, t4, rest, c0, hw, n0, n1, n2, n3, -, -, ht, -⟩ := h.shape
  simp only [GetToxic, GetToxic.loop, hw, ht, n0, n1, n2, n3, List.getElem?_cons_zero,
    List.getElem?_cons_succ]
  split_ifs <;> rfl

/-- What a call of `setToxic` that does not panic does to the links. In every
reachable world every link of the registry holds the chain of the collection.
A call of `setToxic` with a non-nil toxic and an index within the chain
returns; it writes the new stage `v` at `chain[index]`, every link of the
registry receives exactly the one command `(v, index)` and has its slot `index`
replaced by `v`, every other link is left as it was, and afterwards every link
of the registry again holds the chain of the collection. -/
theorem setToxic_fanOut_registered (w : World) (h : Reachable w) (toxic : Ptr) (index : Nat)
    (t : ToxicWrapper) (ht : w.wrappers[toxic]? = some t) (hidx : index < w.c.chain.length) :
    (∀ name q, mapGet w.c.links name = some q →
      ∃ l, w.linkObjs[q]? = some l ∧ l.chain = w.c.chain) ∧
    ∃ w2 v, setToxic w toxic index = Outcome.ret () w2 ∧
      w2.c.chain = w.c.chain.set index v ∧ w2.c.chain[index]? = some v ∧
      w2.c.links = w.c.links ∧
      (∀ name q, mapGet w.c.links name = some q →
        ∃ l, w.linkObjs[q]? = some l ∧
          w2.linkObjs[q]? = some { l with chain := l.chain.set index v,
                                          cmds := l.cmds ++ [(v, index)] }) ∧
      (∀ q, (∀ name, mapGet w.c.links name ≠ some q) → w2.linkObjs[q]? = w.linkObjs[q]?) ∧
      (∀ name q, mapGet w2.c.links name = some q →
        ∃ l, w2.linkObjs[q]? = some l ∧ l.chain = w2.c.chain) := by
  have hi := Inv.of_reachable h
  refine ⟨fun name q hq => hi.registered_mirror name q hq, ?_⟩
  have hi2 := hi.setToxic toxic index
  rcases setToxic_cases w toxic index with hp | ⟨t1, ht1, -, hr⟩
  · exfalso
    unfold setToxic at hp
    simp [ht, hidx] at hp
  · rw [hr] at hi2
    refine ⟨_, (if !t1.Enabled then w.c.noop else toxic), hr, rfl, ?_, rfl, ?_, ?_, ?_⟩
    · simp [List.getElem?_set, hidx]
    · intro name q hq
      have hmem : q ∈ w.c.links.map Prod.snd := (hi.registered_iff q).2 ⟨name, hq⟩
      obtain ⟨l, hl, -⟩ := hi.registered_mirror name q hq
      refine ⟨l, hl, ?_⟩
      show (fanOut w.linkObjs w.c.links _ index)[q]? = _
      rw [fanOut_getElem?_of_mem _ _ _ _ _ hi.linksNodup hmem, hl]
      rfl
    · intro q hq
      have hnot : q ∉ w.c.links.map Prod.snd := by
        intro hmem
        obtain ⟨name, hn⟩ := (hi.registered_iff q).1 hmem
        exact hq name hn
      exact fanOut_getElem?_of_not_mem _ _ _ _ _ hnot
    · intro name q hq
      exact hi2.registered_mirror name q hq

/-! ## The claims -/

/-- C1. The claim asks that the chain be as long as the list of toxic slots
(4) in every reachable world. On the code the length of the chain is indeed
never changed by any call, but the constructor makes it with length 1, so in
every reachable world the chain has 1 element and the list of toxics has 4. -/
theorem C1_chain_length_reachable (w : World) (h : Reachable w) :
    w.c.chain.length = 1 ∧ w.c.toxics.length = 4 ∧ w.c.chain.length ≠ w.c.toxics.length := by
  have hi := Inv.of_reachable h
  refine ⟨hi.chain, by rw [hi.toxics]; rfl, ?_⟩
  rw [hi.chain, hi.toxics]
  decide

theorem C1_chain_length_reachable_witness :
    Reachable (NewToxicCollection 0) ∧
    (NewToxicCollection 0).c.chain.length = 1 ∧ (NewToxicCollection 0).c.toxics.length = 4 ∧
    (NewToxicCollection 0).c.chain.length ≠ (NewToxicCollection 0).c.toxics.length :=
  ⟨reachable_init 0, C1_chain_length_reachable (NewToxicCollection 0) (reachable_init 0)⟩

/-- C2. The claim asks that `chain[i]` be the toxic stored at `toxics[i]` when
that toxic is enabled and the noop otherwise. On the code the slots 1 to 3 have
no element of the chain at all, and after `SetToxicValue` of an enabled
slow_close toxic allocated by the caller (address 5) the chain holds that toxic
at slot 0, which is neither the noop (address 4) nor the stored toxic of the
slot (address 0), and the stored toxic is disabled. -/
theorem C2_chain_not_stored_toxic :
    (NewToxicCollection 0).c.chain[1]? = none ∧
    (run (NewToxicCollection 0)
      [Op.new ⟨⟨"slow_close", [250]⟩, true, 0⟩, Op.SetToxicValue 5]).c.chain = [5] ∧
    (run (NewToxicCollection 0)
      [Op.new ⟨⟨"slow_close", [250]⟩, true, 0⟩, Op.SetToxicValue 5]).c.toxics[0]? = some 0 ∧
    (run (NewToxicCollection 0)
      [Op.new ⟨⟨"slow_close", [250]⟩, true, 0⟩, Op.SetToxicValue 5]).c.noop = 4 ∧
    ((run (NewToxicCollection 0)
      [Op.new ⟨⟨"slow_close", [250]⟩, true, 0⟩, Op.SetToxicValue 5]).wrappers[0]?).map
        ToxicWrapper.Enabled = some false := by
  decide

/-- C3. The claim asks that after `SetToxicValue(t)` returns without error
`GetToxic(t.Name())` give a toxic with the enabled flag and parameters of `t`.
On the code `SetToxicValue` never writes the stored toxics: with `t` an enabled
slow_close toxic of delay 250 allocated by the caller at address 5, the call
returns without error, and `GetToxic` and `GetToxicMap` still give the toxic at
address 0, disabled and with delay 0. -/
theorem C3_set_value_not_stored :
    (∀ (w : World) (toxic : Ptr),
      (SetToxicValue w toxic).world.wrappers = w.wrappers ∧
      (SetToxicValue w toxic).world.c.toxics = w.c.toxics) ∧
    SetToxicValue (run (NewToxicCollection 0) [Op.new ⟨⟨"slow_close", [250]⟩, true, 0⟩]) 5
      = Outcome.ret none (run (NewToxicCollection 0)
          [Op.new ⟨⟨"slow_close", [250]⟩, true, 0⟩, Op.SetToxicValue 5]) ∧
    GetToxic (run (NewToxicCollection 0)
        [Op.new ⟨⟨"slow_close", [250]⟩, true, 0⟩, Op.SetToxicValue 5]) "slow_close"
      = Outcome.ret (some 0) (run (NewToxicCollection 0)
          [Op.new ⟨⟨"slow_close", [250]⟩, true, 0⟩, Op.SetToxicValue 5]) ∧
    GetToxicMap (run (NewToxicCollection 0)
        [Op.new ⟨⟨"slow_close", [250]⟩, true, 0⟩, Op.SetToxicValue 5])
      = Outcome.ret [("timeout", 3), ("bandwidth", 2), ("latency", 1), ("slow_close", 0)]
          (run (NewToxicCollection 0)
            [Op.new ⟨⟨"slow_close", [250]⟩, true, 0⟩, Op.SetToxicValue 5]) ∧
    (run (NewToxicCollection 0)
        [Op.new ⟨⟨"slow_close", [250]⟩, true, 0⟩, Op.SetToxicValue 5]).wrappers[0]?
      = some ⟨⟨"slow_close", [0]⟩, false, -1⟩ ∧
    (run (NewToxicCollection 0)
        [Op.new ⟨⟨"slow_close", [250]⟩, true, 0⟩, Op.SetToxicValue 5]).wrappers[5]?
      = some ⟨⟨"slow_close", [250]⟩, true, 0⟩ :=
  ⟨fun w toxic => setValueLoop_stored _ w toxic 0, by decide, by decide, by decide, by decide,
    by decide⟩

/-- C4. In every reachable world `SetToxicJson(name, data)` returns the error
"Bad toxic type" exactly when no slot's toxic has the name `name`, and
`SetToxicValue(toxic)`, for a non-nil `toxic`, returns it exactly when no slot's
toxic has the name of `toxic`; whenever either call returns that error the
whole world is as before the call: chain, stored toxics, registry, and the
links, none of which has received a command. -/
theorem C4_unknown_toxic (w : World) (h : Reachable w) :
    (∀ (name : String) (data : JsonData),
      (SetToxicJson w name data = Outcome.ret (Except.error (Error.badToxicType name)) w ↔
        ∀ p ∈ w.c.toxics, ∀ t, w.wrappers[p]? = some t → t.Name ≠ name) ∧
      (∀ e w2, SetToxicJson w name data = Outcome.ret (Except.error (Error.badToxicType e)) w2 →
        w2 = w ∧ e = name)) ∧
    (∀ (toxic : Ptr) (t : ToxicWrapper), w.wrappers[toxic]? = some t →
      (SetToxicValue w toxic = Outcome.ret (some (Error.badToxicValue toxic)) w ↔
        ∀ p ∈ w.c.toxics, ∀ t2, w.wrappers[p]? = some t2 → t2.Name ≠ t.Name) ∧
      (∀ e w2, SetToxicValue w toxic = Outcome.ret (some e) w2 →
        w2 = w ∧ e = Error.badToxicValue toxic)) := by
  have hv := (Inv.of_reachable h).toxicsValid
  refine ⟨fun name data => ⟨setJsonLoop_bad_iff _ w name data 0 hv, ?_⟩,
    fun toxic t ht => ⟨setValueLoop_bad_iff _ w toxic t 0 ht hv, ?_⟩⟩
  · intro e w2 he
    exact setJsonLoop_bad_world _ w name data 0 e w2 he
  · intro e w2 he
    exact setValueLoop_bad_world _ w toxic 0 e w2 he

theorem C4_unknown_toxic_witness :
    Reachable (NewToxicCollection 0) ∧
    SetToxicJson (NewToxicCollection 0) "jitter" ⟨some true, none, none, false⟩
      = Outcome.ret (Except.error (Error.badToxicType "jitter")) (NewToxicCollection 0) ∧
    ¬ (SetToxicJson (NewToxicCollection 0) "slow_close" ⟨some true, none, none, false⟩
      = Outcome.ret (Except.error (Error.badToxicType "slow_close")) (NewToxicCollection 0)) ∧
    SetToxicValue (NewToxicCollection 0) 4
      = Outcome.ret (some (Error.badToxicValue 4)) (NewToxicCollection 0) := by
  have hc := C4_unknown_toxic (NewToxicCollection 0) (reachable_init 0)
  refine ⟨reachable_init 0, ?_, ?_, ?_⟩
  · exact ((hc.1 "jitter" ⟨some true, none, none, false⟩).1).2 (by decide)
  · intro hbad
    exact (((hc.1 "slow_close" ⟨some true, none, none, false⟩).1).1 hbad) 0 (by decide)
      ⟨newSlowCloseToxic, false, -1⟩ rfl rfl
  · exact ((hc.2 4 ⟨newNoopToxic, true, 0⟩ rfl).1).2 (by decide)

/-- C5. The claim asks that after `ResetToxics` every stored toxic be disabled.
On the code the call panics at slot 1 and never reaches the slots 2 and 3: on a
fresh collection it does not return, and after `SetToxicJson` has decoded
`enabled: true` into the bandwidth toxic (slot 2), `ResetToxics` leaves that
toxic enabled. -/
theorem C5_reset_leaves_enabled :
    (ResetToxics (NewToxicCollection 0)).returned = false ∧
    (ResetToxics (run (NewToxicCollection 0)
        [Op.SetToxicJson "bandwidth" ⟨some true, none, none, false⟩])).returned = false ∧
    ((ResetToxics (run (NewToxicCollection 0)
        [Op.SetToxicJson "bandwidth" ⟨some true, none, none, false⟩])).world.wrappers[2]?).map
      ToxicWrapper.Enabled = some true := by
  decide

/-- C6. The claim asks that `ResetToxics` be a no-op on a fresh collection and
idempotent. On the code the call on a fresh collection does not return: it
panics at slot 1, leaving the world as it was, and so does a second call. -/
theorem C6_reset_fresh_panics (proxy : Nat) :
    ResetToxics (NewToxicCollection proxy) = Outcome.panic (NewToxicCollection proxy) ∧
    ResetToxics (ResetToxics (NewToxicCollection proxy)).world
      = Outcome.panic (NewToxicCollection proxy) := by
  have h1 : ResetToxics (NewToxicCollection proxy) = Outcome.panic (NewToxicCollection proxy) :=
    rfl
  refine ⟨h1, ?_⟩
  rw [h1]
  exact h1

/-- C7. The claim asks that every index `setToxic` writes be within the chain.
On the code, in every reachable world, `setToxic` panics for every index from 1
on (the chain has one element), and `ResetToxics`, which walks the slots 0 to
3, panics. -/
theorem C7_reset_panics (w : World) (h : Reachable w) :
    (∀ toxic index, 1 ≤ index → setToxic w toxic index = Outcome.panic w) ∧
    (ResetToxics w).returned = false := by
  have hi := Inv.of_reachable h
  obtain ⟨t0, t1, t2, t3, t4, rest, c0, hw, -, -, -, -, -, hc, ht, hn⟩ := hi.shape
  constructor
  · intro toxic index hidx
    unfold setToxic
    cases w.wrappers[toxic]? with
    | none => rfl
    | some t =>
      have : ¬ index < w.c.chain.length := by
        rw [hc]
        simp only [List.length_singleton]
        omega
      simp [this]
  · simp [ResetToxics, ResetToxics.loop, setToxic, hw, hc, ht, Outcome.returned]

theorem C7_reset_panics_witness :
    Reachable (NewToxicCollection 0) ∧
    (∀ toxic index, 1 ≤ index →
      setToxic (NewToxicCollection 0) toxic index = Outcome.panic (NewToxicCollection 0)) ∧
    (ResetToxics (NewToxicCollection 0)).returned = false :=
  ⟨reachable_init 0, C7_reset_panics (NewToxicCollection 0) (reachable_init 0)⟩

/-- C8. The claim asks that every `setToxic` call deliver exactly one command
`(chain[index], index)` to every registered link, so that a live link holds the
stage of the collection at every slot. On the code, with one link registered
under the name "a", the call of `setToxic` for slot 1 panics before the fan-out,
and so do `SetToxicJson("latency", enabled)` and `ResetToxics` when they reach
it: the latency toxic is stored as enabled, the chain of the collection has no
slot 1, and the registered link has received no command and still holds the
single noop stage it was started with. -/
theorem C8_no_command_beyond_slot_zero :
    mapGet (run (NewToxicCollection 0) [Op.StartLink "a" 0 0]).c.links "a" = some 0 ∧
    (run (NewToxicCollection 0) [Op.StartLink "a" 0 0]).linkObjs[0]?
      = some ⟨0, [4], [], some ("a", 0, 0)⟩ ∧
    setToxic (run (NewToxicCollection 0) [Op.StartLink "a" 0 0]) 1 1
      = Outcome.panic (run (NewToxicCollection 0) [Op.StartLink "a" 0 0]) ∧
    (SetToxicJson (run (NewToxicCollection 0) [Op.StartLink "a" 0 0]) "latency"
        ⟨some true, none, none, false⟩).returned = false ∧
    ((SetToxicJson (run (NewToxicCollection 0) [Op.StartLink "a" 0 0]) "latency"
        ⟨some true, none, none, false⟩).world.wrappers[1]?).map
      ToxicWrapper.Enabled = some true ∧
    (SetToxicJson (run (NewToxicCollection 0) [Op.StartLink "a" 0 0]) "latency"
        ⟨some true, none, none, false⟩).world.c.chain = [4] ∧
    (SetToxicJson (run (NewToxicCollection 0) [Op.StartLink "a" 0 0]) "latency"
        ⟨some true, none, none, false⟩).world.c.chain[1]? = none ∧
    (SetToxicJson (run (NewToxicCollection 0) [Op.StartLink "a" 0 0]) "latency"
        ⟨some true, none, none, false⟩).world.linkObjs
      = (run (NewToxicCollection 0) [Op.StartLink "a" 0 0]).linkObjs ∧
    (ResetToxics (run (NewToxicCollection 0) [Op.StartLink "a" 0 0])).returned = false := by
  decide

/-- C9. `StartLink(name, r, w)` returns, allocates the new link and makes the
registry map `name` to it, whatever `name` was mapped to before; every other
key of the registry, the chain, the stored toxics and the links that existed
are unchanged. `RemoveLink(name)` returns and leaves the registry without an
entry for `name`; every other key, the chain, the stored toxics and the links
are unchanged, and when `name` has no entry the world is as before the call. -/
theorem C9_registry_frame (w : World) (name : String) (input output : Nat) :
    ((StartLink w name input output).returned = true ∧
      mapGet (StartLink w name input output).world.c.links name = some w.linkObjs.length ∧
      (StartLink w name input output).world.linkObjs
        = w.linkObjs ++ [(NewToxicLink w.c.proxy w.c).Start name input output] ∧
      (∀ k, k ≠ name →
        mapGet (StartLink w name input output).world.c.links k = mapGet w.c.links k) ∧
      (StartLink w name input output).world.c.chain = w.c.chain ∧
      (StartLink w name input output).world.c.toxics = w.c.toxics ∧
      (StartLink w name input output).world.wrappers = w.wrappers) ∧
    ((RemoveLink w name).returned = true ∧
      mapGet (RemoveLink w name).world.c.links name = none ∧
      (∀ k, k ≠ name → mapGet (RemoveLink w name).world.c.links k = mapGet w.c.links k) ∧
      (mapGet w.c.links name = none → (RemoveLink w name).world = w) ∧
      (RemoveLink w name).world.c.chain = w.c.chain ∧
      (RemoveLink w name).world.c.toxics = w.c.toxics ∧
      (RemoveLink w name).world.wrappers = w.wrappers ∧
      (RemoveLink w name).world.linkObjs = w.linkObjs) := by
  refine ⟨⟨rfl, mapGet_mapSet_self _ _ _, rfl, ?_, rfl, rfl, rfl⟩,
    ⟨rfl, mapGet_mapDelete_self _ _, ?_, ?_, rfl, rfl, rfl, rfl⟩⟩
  · intro k hk
    exact mapGet_mapSet_ne _ _ _ _ hk
  · intro k hk
    exact mapGet_mapDelete_ne _ _ _ hk
  · intro hnone
    show ({ w with c := { w.c with links := mapDelete w.c.links name } } : World) = w
    rw [mapDelete_of_mapGet_none _ _ hnone]

/-- C10. In every reachable world `GetToxic` and `GetToxicMap` return and
leave the world as it was. `GetToxicMap` returns a map with as many entries as
there are slots, each entry being a slot keyed by the name of its toxic, and
each slot being found under its name. For every name, `GetToxic(name)` returns
what the map holds at that name: a slot whose stored toxic has that name, or
nil, and nil exactly when no slot's toxic has that name. -/
theorem C10_get_agree (w : World) (h : Reachable w) :
    ∃ m, GetToxicMap w = Outcome.ret m w ∧
      m.length = w.c.toxics.length ∧
      (∀ e ∈ m, e.2 ∈ w.c.toxics ∧ ∃ t, w.wrappers[e.2]? = some t ∧ t.Name = e.1) ∧
      (∀ p ∈ w.c.toxics, ∀ t, w.wrappers[p]? = some t → mapGet m t.Name = some p) ∧
      ∀ name : String,
        GetToxic w name = Outcome.ret (mapGet m name) w ∧
        (mapGet m name = none ↔
          ∀ p ∈ w.c.toxics, ∀ t, w.wrappers[p]? = some t → t.Name ≠ name) ∧
        (∀ p, mapGet m name = some p →
          p ∈ w.c.toxics ∧ ∃ t, w.wrappers[p]? = some t ∧ t.Name = name) := by
  have hi := Inv.of_reachable h
  obtain ⟨t0, t1, t2, t3, t4, rest, c0, hw, n0, n1, n2, n3, -, -, ht, -⟩ := hi.shape
  refine ⟨_, getToxicMap_eq hi, ?_, ?_, ?_, ?_⟩
  · rw [ht]
    rfl
  · intro e he
    simp only [List.mem_cons, List.mem_singleton, List.not_mem_nil, or_false] at he
    rcases he with rfl | rfl | rfl | rfl <;> simp [hw, ht, n0, n1, n2, n3]
  · intro p hp t htp
    rw [ht] at hp
    simp only [List.mem_cons, List.mem_singleton, List.not_mem_nil, or_false] at hp
    rcases hp with rfl | rfl | rfl | rfl <;>
      simp only [hw, List.getElem?_cons_zero, List.getElem?_cons_succ, Option.some.injEq] at htp <;>
      subst htp <;> simp [mapGet, n0, n1, n2, n3]
  · intro name
    have hall : (∀ p ∈ w.c.toxics, ∀ t, w.wrappers[p]? = some t → t.Name ≠ name) ↔
        ("slow_close" ≠ name ∧ "latency" ≠ name ∧ "bandwidth" ≠ name ∧ "timeout" ≠ name) := by
      rw [ht]
      simp [hw, n0, n1, n2, n3]
    rw [getToxic_eq hi name, hall]
    by_cases h0 : "slow_close" = name
    · subst h0
      simp [mapGet, hw, ht, n0]
    · by_cases h1 : "latency" = name
      · subst h1
        simp [mapGet, hw, ht, n1]
      · by_cases h2 : "bandwidth" = name
        · subst h2
          simp [mapGet, hw, ht, n2]
        · by_cases h3 : "timeout" = name
          · subst h3
            simp [mapGet, hw, ht, n3]
          · simp [mapGet, h0, h1, h2, h3]

theorem C10_get_agree_witness :
    Reachable (NewToxicCollection 0) ∧
    ∃ m, GetToxicMap (NewToxicCollection 0) = Outcome.ret m (NewToxicCollection 0) ∧
      m.length = (NewToxicCollection 0).c.toxics.length ∧
      (∀ e ∈ m, e.2 ∈ (NewToxicCollection 0).c.toxics ∧
        ∃ t, (NewToxicCollection 0).wrappers[e.2]? = some t ∧ t.Name = e.1) ∧
      (∀ p ∈ (NewToxicCollection 0).c.toxics, ∀ t,
        (NewToxicCollection 0).wrappers[p]? = some t → mapGet m t.Name = some p) ∧
      ∀ name : String,
        GetToxic (NewToxicCollection 0) name
          = Outcome.ret (mapGet m name) (NewToxicCollection 0) ∧
        (mapGet m name = none ↔
          ∀ p ∈ (NewToxicCollection 0).c.toxics, ∀ t,
            (NewToxicCollection 0).wrappers[p]? = some t → t.Name ≠ name) ∧
        (∀ p, mapGet m name = some p →
          p ∈ (NewToxicCollection 0).c.toxics ∧
            ∃ t, (NewToxicCollection 0).wrappers[p]? = some t ∧ t.Name = name) :=
  ⟨reachable_init 0, C10_get_agree (NewToxicCollection 0) (reachable_init 0)⟩

end Toxiproxy
